import Mathlib

/-!
Shallow embedding of `node-package-builder` (class `NodePackageBuilder`,
file `src/index.js`) and verification of the spec's claims about it.

JavaScript strings are modelled by `String` / `List Char`; JS `Number`
values arising in this code are integers or `NaN`, modelled by
`Option Int` (`none` = `NaN`).  File-system state is modelled explicitly
where a claim needs it.
-/

namespace NPB

/-! ## JS string primitives used by the source -/

/-- Does the character list `l` start with `pre`? (char-by-char). -/
def listStarts (pre l : List Char) : Bool :=
  match pre, l with
  | [], _ => true
  | _ :: _, [] => false
  | a :: as, b :: bs => a == b && listStarts as bs

/-- Does `l` contain `sub` as a contiguous run? -/
def listHasSub (sub l : List Char) : Bool :=
  match l with
  | [] => sub.isEmpty
  | _ :: bs => listStarts sub l || listHasSub sub bs

/-- JS `s.includes(sub)`. -/
def jsIncludes (s sub : String) : Bool := listHasSub sub.data s.data

/-- JS `s.endsWith(t)`. -/
def jsEndsWith (s t : String) : Bool := listStarts t.data.reverse s.data.reverse

/-- JS `s.startsWith(t)`. -/
def jsStartsWith (s t : String) : Bool := listStarts t.data s.data

/-- JS `s.split(sep)` for a single-character separator. -/
def splitChar (sep : Char) : List Char → List (List Char)
  | [] => [[]]
  | c :: cs =>
    let r := splitChar sep cs
    if c == sep then [] :: r
    else
      match r with
      | [] => [[c]]
      | h :: t => (c :: h) :: t

/-- Numeric value of a digit run (most significant first). -/
def digitsToNat (l : List Char) : Nat :=
  l.foldl (fun n c => 10 * n + (c.toNat - 48)) 0

/-- JS `Number(s)` restricted to the decimal-integer fragment that version
components exercise: whitespace is trimmed, the empty string is `0`, an
optional sign followed by digits is its value, anything else is `NaN`
(`none`). -/
def jsNumber (s : String) : Option Int :=
  let t := (((s.data.dropWhile Char.isWhitespace).reverse.dropWhile
      Char.isWhitespace).reverse)
  if t.isEmpty then some 0
  else if t.all Char.isDigit then some (digitsToNat t)
  else
    match t with
    | '-' :: rest => if !rest.isEmpty && rest.all Char.isDigit then some (-(digitsToNat rest : Int)) else none
    | '+' :: rest => if !rest.isEmpty && rest.all Char.isDigit then some (digitsToNat rest) else none
    | _ => none

/-! ## Version comparison (`isVersionGreaterOrEqual`, `checkNodeVersion`) -/

/-- Tail of the comparison loop of `isVersionGreaterOrEqual` once the
current side is exhausted (`currentParts[i] || 0` reads `0` there). -/
def vergeNil : List (Option Int) → Bool
  | [] => true
  | r :: rs =>
    if (0 : Int) > r.getD 0 then true
    else if (0 : Int) < r.getD 0 then false
    else vergeNil rs

/-- The comparison loop of `isVersionGreaterOrEqual`
(`for i in 0 .. max(len,len)`): each side reads `parts[i] || 0`, so a
missing component (`undefined`), a `NaN` component, and a `0` component
all contribute `0` — modelled by `Option.getD 0` after `headD none`. -/
def vergeLoop : List (Option Int) → List (Option Int) → Bool
  | [], req => vergeNil req
  | c :: cs, req =>
    if c.getD 0 > (req.headD none).getD 0 then true
    else if c.getD 0 < (req.headD none).getD 0 then false
    else vergeLoop cs req.tail

/-- `isVersionGreaterOrEqual(current, required)`:
`current.split('.').map(Number)` against `required.split('.').map(Number)`,
compared left to right. -/
def isVersionGreaterOrEqual (current required : String) : Bool :=
  vergeLoop ((splitChar '.' current.data).map (fun p => jsNumber (String.mk p)))
    ((splitChar '.' required.data).map (fun p => jsNumber (String.mk p)))

/-- `checkNodeVersion`: rejects the host version when it does not reach
`19.9.0` (the host version string is `process.version.slice(1)`). -/
def checkNodeVersion (currentVersion : String) : Except String Unit :=
  if !(isVersionGreaterOrEqual currentVersion "19.9.0") then
    Except.error ("Node.js version 19.9.0 or higher is required. Current version: " ++ currentVersion)
  else Except.ok ()

/-- Specification-level padded comparison on the defaulted numeric values:
used to state that only the `|| 0`-defaulted component values matter. -/
def versionLexNil : List Int → Bool
  | [] => true
  | r :: rs =>
    if (0 : Int) > r then true else if (0 : Int) < r then false else versionLexNil rs

def versionLex : List Int → List Int → Bool
  | [], req => versionLexNil req
  | c :: cs, req =>
    if c > req.headD 0 then true
    else if c < req.headD 0 then false
    else versionLex cs req.tail

/-! ## Executable naming and download URLs -/

/-- `getExecutableName(platform)` applied to the configured output base
name. -/
def getExecutableName (output platform : String) : String :=
  if platform == "win32" then
    if jsEndsWith output ".exe" then output else output ++ ".exe"
  else output

/-- `getNodeDownloadUrl(version, platform)`; throws for a platform outside
the fixed three. -/
def getNodeDownloadUrl (version platform : String) : Except String String :=
  let arch := "x64"
  let baseUrl := "https://nodejs.org/dist"
  if platform == "win32" then
    Except.ok (baseUrl ++ "/v" ++ version ++ "/node-v" ++ version ++ "-win-" ++ arch ++ ".zip")
  else if platform == "darwin" then
    Except.ok (baseUrl ++ "/v" ++ version ++ "/node-v" ++ version ++ "-darwin-" ++ arch ++ ".tar.gz")
  else if platform == "linux" then
    Except.ok (baseUrl ++ "/v" ++ version ++ "/node-v" ++ version ++ "-linux-" ++ arch ++ ".tar.gz")
  else Except.error ("Unsupported platform: " ++ platform)

/-- The platform-identifying token that appears in a download URL
(`win32` builds use the `win` token in the official dist file names). -/
def platformUrlToken (platform : String) : String :=
  if platform == "win32" then "win" else platform

/-! ## Helper lemmas on the string primitives -/

theorem listStarts_append (p r : List Char) : listStarts p (p ++ r) = true := by
  induction p with
  | nil => rfl
  | cons a as ih => simp [listStarts, ih]

theorem listHasSub_append_left (sub a b : List Char) :
    listHasSub sub (a ++ sub ++ b) = true := by
  induction a with
  | nil =>
    cases sub with
    | nil => cases b <;> simp [listHasSub, listStarts, List.isEmpty]
    | cons c cs =>
      simp only [List.nil_append]
      show listHasSub (c :: cs) ((c :: cs) ++ b) = true
      unfold listHasSub
      rw [listStarts_append]
      simp
  | cons x xs ih =>
    show listHasSub sub (x :: (xs ++ sub ++ b)) = true
    unfold listHasSub
    rw [ih]
    simp

theorem jsIncludes_middle (a v b : String) :
    jsIncludes (a ++ v ++ b) v = true := by
  unfold jsIncludes
  rw [String.data_append, String.data_append]
  exact listHasSub_append_left v.data a.data b.data

theorem jsEndsWith_append (s t : String) : jsEndsWith (s ++ t) t = true := by
  unfold jsEndsWith
  rw [String.data_append, List.reverse_append]
  exact listStarts_append t.data.reverse s.data.reverse

theorem listHasSub_of_tail (sub : List Char) {l : List Char}
    (h : listHasSub sub l.tail = true) : listHasSub sub l = true := by
  cases l with
  | nil => simpa using h
  | cons c cs =>
    unfold listHasSub
    simp only [List.tail_cons] at h
    rw [h]
    simp

theorem jsIncludes_of_data (s sub : String) (a b : List Char)
    (h : s.data = a ++ sub.data ++ b) : jsIncludes s sub = true := by
  unfold jsIncludes
  rw [h]
  exact listHasSub_append_left sub.data a b

theorem jsEndsWith_of_data (s t : String) (a : List Char)
    (h : s.data = a ++ t.data) : jsEndsWith s t = true := by
  unfold jsEndsWith
  rw [h, List.reverse_append]
  exact listStarts_append t.data.reverse a.reverse

/-! ## Windows post-injection verification -/

/-- Outcome of re-invoking the built executable with `--help`
(`execSync` with a 5000 ms timeout): either captured stdout, or a thrown
error (non-zero exit, spawn failure, or `ETIMEDOUT` on timeout). -/
inductive ExecOutcome where
  | ok (output : String)
  | err (message : String)
deriving DecidableEq

/-- The `timeout` option passed to the verification `execSync` call. -/
def verifyTimeoutMs : Nat := 5000

/-- `verifyWindowsExecutable`: the try block throws a `REPL mode` error
when the captured output carries the REPL banner; the catch block
rethrows exactly the errors whose message contains `REPL mode`
(the self-thrown one) and swallows every other error, including the
`execSync` timeout. The composition of try/throw/catch is flattened
into the returned `Except`. -/
def verifyWindowsExecutable (invocation : ExecOutcome) : Except String Unit :=
  match invocation with
  | ExecOutcome.ok result =>
    if jsIncludes result "Welcome to Node.js" || jsIncludes result "Type \".help\"" then
      Except.error "Windows executable is still in REPL mode - blob injection failed"
    else Except.ok ()
  | ExecOutcome.err message =>
    if jsIncludes message "REPL mode" then Except.error message else Except.ok ()

/-! ## Build options and SEA config generation -/

structure BuildOptions where
  main : String
  output : String
  disableExperimentalSEAWarning : Bool
  useSnapshot : Bool
  useCodeCache : Bool
  assets : List (String × String)
  platforms : List String
  tempDir : String
deriving DecidableEq

/-- One `NodePackageBuilder` instance after construction: its options,
the generated `buildId`, the derived `tempBuildDir = tempDir/buildId`,
the host's `process.platform` and `process.cwd()`. -/
structure Builder where
  options : BuildOptions
  buildId : String
  tempBuildDir : String
  hostPlatform : String
  cwd : String
deriving DecidableEq

/-- `path.join` (POSIX form). -/
def pathJoin (a b : String) : String := a ++ "/" ++ b

/-- `path.resolve(p)` for a relative `p`. -/
def pathResolve (cwd p : String) : String := pathJoin cwd p

/-- The JSON config object written by `createSeaConfig`; the `assets`
key is optional (`none` = key absent). -/
structure SeaConfig where
  main : String
  output : String
  disableExperimentalSEAWarning : Bool
  useSnapshot : Bool
  useCodeCache : Bool
  assets : Option (List (String × String))
deriving DecidableEq

/-- `createSeaConfig(platform)`: returns the config object together with
the path it is serialized to. -/
def createSeaConfig (b : Builder) (platform : String) : SeaConfig × String :=
  let config : SeaConfig :=
    { main := b.options.main
      output := pathJoin b.tempBuildDir ("sea-prep-" ++ platform ++ ".blob")
      disableExperimentalSEAWarning := b.options.disableExperimentalSEAWarning
      useSnapshot := b.options.useSnapshot
      useCodeCache := b.options.useCodeCache
      assets := none }
  let config :=
    if platform != b.hostPlatform then
      { config with useSnapshot := false, useCodeCache := false }
    else config
  let config :=
    if b.options.assets.length > 0 then { config with assets := some b.options.assets }
    else config
  let configPath :=
    pathJoin b.tempBuildDir ("sea-config-" ++ platform ++ "-" ++ b.buildId ++ ".json")
  (config, configPath)

/-! ## Version resolution (`getRecommendedNodeVersion`)

The `semver` library calls (`gte`, `lte`, `major`) are modelled on the
semver grammar: `[v]major.minor.patch[-prerelease][+build]` with numeric
no-leading-zero identifiers, prerelease precedence below the release,
and `Invalid Version` thrown (here `Except.error`) on anything else. -/

def isDigits (l : List Char) : Bool := !l.isEmpty && l.all Char.isDigit

def noLeadingZero : List Char → Bool
  | [] => false
  | [_] => true
  | c :: _ :: _ => c != '0'

def parseNumericIdent (l : List Char) : Option Nat :=
  if isDigits l && noLeadingZero l then some (digitsToNat l) else none

def validPreIdentChar (c : Char) : Bool := c.isAlpha || c.isDigit || c == '-'

def validPreIdent (l : List Char) : Bool :=
  !l.isEmpty && l.all validPreIdentChar && (!(l.all Char.isDigit) || noLeadingZero l)

structure SemVer where
  major : Nat
  minor : Nat
  patch : Nat
  prerelease : List String
deriving DecidableEq

/-- Split at the first occurrence of `sep`: what comes before, and
(when `sep` occurs) what comes after. -/
def breakAt (sep : Char) : List Char → List Char × Option (List Char)
  | [] => ([], none)
  | c :: cs =>
    if c == sep then ([], some cs)
    else
      let r := breakAt sep cs
      (c :: r.1, r.2)

def parseSemver (s : String) : Option SemVer :=
  let l := match s.data with
    | 'v' :: rest => rest
    | l => l
  let beforeBuild := (breakAt '+' l).1
  let core := (breakAt '-' beforeBuild).1
  let pre := (breakAt '-' beforeBuild).2
  match splitChar '.' core with
  | [a, b, c] =>
    match parseNumericIdent a, parseNumericIdent b, parseNumericIdent c with
    | some major, some minor, some patch =>
      match pre with
      | none => some ⟨major, minor, patch, []⟩
      | some pr =>
        let ids := splitChar '.' pr
        if ids.all validPreIdent then
          some ⟨major, minor, patch, ids.map (fun x => String.mk x)⟩
        else none
    | _, _, _ => none
  | _ => none

def cmpChars : List Char → List Char → Ordering
  | [], [] => Ordering.eq
  | [], _ :: _ => Ordering.lt
  | _ :: _, [] => Ordering.gt
  | a :: as, b :: bs =>
    if a < b then Ordering.lt else if b < a then Ordering.gt else cmpChars as bs

/-- Semver prerelease identifier precedence: numeric identifiers compare
numerically and rank below alphanumeric ones; alphanumeric ones compare
in ASCII order. -/
def cmpPreIdent (a b : String) : Ordering :=
  if isDigits a.data && isDigits b.data then compare (digitsToNat a.data) (digitsToNat b.data)
  else if isDigits a.data then Ordering.lt
  else if isDigits b.data then Ordering.gt
  else cmpChars a.data b.data

def cmpPreList : List String → List String → Ordering
  | [], [] => Ordering.eq
  | [], _ :: _ => Ordering.lt
  | _ :: _, [] => Ordering.gt
  | a :: as, b :: bs =>
    match cmpPreIdent a b with
    | Ordering.eq => cmpPreList as bs
    | o => o

def semverCompare (x y : SemVer) : Ordering :=
  match compare x.major y.major with
  | Ordering.eq =>
    match compare x.minor y.minor with
    | Ordering.eq =>
      match compare x.patch y.patch with
      | Ordering.eq =>
        match x.prerelease, y.prerelease with
        | [], [] => Ordering.eq
        | [], _ :: _ => Ordering.gt
        | _ :: _, [] => Ordering.lt
        | a :: as, b :: bs => cmpPreList (a :: as) (b :: bs)
      | o => o
    | o => o
  | o => o

/-- `semver.gte(a, b)`; throws `Invalid Version` on unparsable input. -/
def semverGteE (a b : String) : Except String Bool :=
  match parseSemver a, parseSemver b with
  | some x, some y =>
    Except.ok (match semverCompare x y with | Ordering.lt => false | _ => true)
  | _, _ => Except.error "Invalid Version"

/-- `semver.lte(a, b)`; throws `Invalid Version` on unparsable input. -/
def semverLteE (a b : String) : Except String Bool :=
  match parseSemver a, parseSemver b with
  | some x, some y =>
    Except.ok (match semverCompare x y with | Ordering.gt => false | _ => true)
  | _, _ => Except.error "Invalid Version"

/-- One entry of the remote `index.json`: a `vX.Y.Z`-style version string
and the `lts` field (`none` models the JSON literal `false`). -/
structure DistEntry where
  version : String
  lts : Option String
deriving DecidableEq

/-- JS `s.slice(1)`. -/
def jsSlice1 (s : String) : String := String.mk s.data.tail

/-- The filter predicate of `getRecommendedNodeVersion`
(`&&` short-circuits, and a `semver` throw propagates out of the
filter). -/
def validFilterPred (e : DistEntry) : Except String Bool :=
  match semverGteE (jsSlice1 e.version) "19.9.0" with
  | Except.error er => Except.error er
  | Except.ok g =>
    if !g then Except.ok false
    else
      match semverLteE (jsSlice1 e.version) "22.99.99" with
      | Except.error er => Except.error er
      | Except.ok l =>
        if !l then Except.ok false
        else Except.ok (!(jsIncludes e.version "rc") && !(jsIncludes e.version "beta"))

def filterValid : List DistEntry → Except String (List DistEntry)
  | [] => Except.ok []
  | e :: es =>
    match validFilterPred e with
    | Except.error er => Except.error er
    | Except.ok true =>
      match filterValid es with
      | Except.error er => Except.error er
      | Except.ok r => Except.ok (e :: r)
    | Except.ok false => filterValid es

def preferredVersions : List String := ["20.18.0", "20.17.0", "20.16.0", "20.15.1"]

/-- The `for (const preferred of preferredVersions)` loop. -/
def findPreferred (valid : List DistEntry) : List String → Option String
  | [] => none
  | p :: rest =>
    match valid.find? (fun v => jsSlice1 v.version == p) with
    | some found => some (jsSlice1 found.version)
    | none => findPreferred valid rest

/-- `semver.major(s) === 20`; entries reaching this check already parsed
successfully inside the filter, so the unparsable case (where the real
`semver.major` would throw) is unreachable and modelled as `false`. -/
def semverMajorIs20 (s : String) : Bool :=
  match parseSemver s with
  | some x => x.major == 20
  | none => false

/-- The selection logic applied to the filtered list: throw on an empty
result, then the preferred list, then the first major-20 LTS entry, then
the first filtered entry (`validVersions[0]`). -/
def selectFromValid : List DistEntry → Except String String
  | [] => Except.error "No valid Node.js versions found (minimum: 19.9.0)"
  | hd :: tl =>
    match findPreferred (hd :: tl) preferredVersions with
    | some v => Except.ok v
    | none =>
      match (hd :: tl).find?
          (fun v => v.lts.isSome && semverMajorIs20 (jsSlice1 v.version)) with
      | some latestLTS => Except.ok (jsSlice1 latestLTS.version)
      | none => Except.ok (jsSlice1 hd.version)

/-- The selection logic of `getRecommendedNodeVersion` once a response
arrived: filter (propagating `semver` throws), then select. -/
def selectVersion (versions : List DistEntry) : Except String String :=
  match filterValid versions with
  | Except.error er => Except.error er
  | Except.ok validVersions => selectFromValid validVersions

/-- `getRecommendedNodeVersion`: `none` models a failed `axios.get`;
every throw inside the `try` (invalid version, empty filtered set)
lands in the catch and yields the hardcoded fallback. -/
def getRecommendedNodeVersion (fetched : Option (List DistEntry)) : String :=
  match fetched with
  | none => "20.18.0"
  | some versions =>
    match selectVersion versions with
    | Except.ok v => v
    | Except.error _ => "20.18.0"

/-! ## Runtime-binary cache (`downloadNodeBinary`)

Cache state: existing files and directories, recorded permission modes,
and a counter of `downloadFile` invocations.  The net file additions of
the extraction step (`extractZip` / `extractTarGz`, which depend on the
archive bytes) are an oracle parameter. -/

structure CacheFs where
  files : List String
  dirs : List String
  perms : List (String × String)
  downloads : Nat
deriving DecidableEq

/-- `if (!fs.existsSync(dir)) fs.mkdirSync(dir, {recursive:true})`. -/
def cacheMkdir (st : CacheFs) (p : String) : CacheFs :=
  if st.dirs.contains p then st else { st with dirs := p :: st.dirs }

/-- `downloadFile(url, filePath)`: streams the archive to `filePath`;
counted so the theorems can speak about the number of downloads. -/
def downloadFile (st : CacheFs) (url filePath : String) : CacheFs :=
  { st with files := filePath :: st.files, downloads := st.downloads + 1 }

/-- Net file additions performed by `extractNodeBinary`; they depend on
the downloaded archive's contents, so they are a parameter. -/
structure ExtractOracle where
  extractedFiles : List String
deriving DecidableEq

def extractNodeBinary (o : ExtractOracle) (st : CacheFs) : CacheFs :=
  { st with files := o.extractedFiles ++ st.files }

/-- `fs.unlinkSync(p)` on the cache state. -/
def cacheUnlink (st : CacheFs) (p : String) : CacheFs :=
  { st with files := st.files.filter (fun q => q != p) }

/-- `fs.chmodSync(p, '755')`. -/
def chmod755 (st : CacheFs) (p : String) : CacheFs :=
  { st with perms := (p, "755") :: st.perms }

/-- `downloadNodeBinary(platform)` with the resolved `version` and the
host's home directory as parameters (`os.homedir()`): cache-dir layout
`~/.node-package-builder/cache/platform/version/(node|node.exe)`. -/
def downloadNodeBinary (o : ExtractOracle) (homeDir version platform : String)
    (st : CacheFs) : Except String (String × CacheFs) :=
  let cacheDir := pathJoin (pathJoin homeDir ".node-package-builder") "cache"
  let platformDir := pathJoin cacheDir platform
  let versionDir := pathJoin platformDir version
  let st := cacheMkdir st cacheDir
  let st := cacheMkdir st platformDir
  let executableName := if platform == "win32" then "node.exe" else "node"
  let executablePath := pathJoin versionDir executableName
  if st.files.contains executablePath then Except.ok (executablePath, st)
  else
    match getNodeDownloadUrl version platform with
    | Except.error e => Except.error e
    | Except.ok downloadUrl =>
      let archivePath := pathJoin platformDir
        ("node-" ++ version ++ "-" ++ platform ++ "." ++
          (if platform == "win32" then "zip" else "tar.gz"))
      let st := downloadFile st downloadUrl archivePath
      let st := cacheMkdir st versionDir
      let st := extractNodeBinary o st
      let st := cacheUnlink st archivePath
      if !(st.files.contains executablePath) then
        Except.error ("Failed to extract Node.js executable for " ++ platform)
      else
        let st := if platform != "win32" then chmod755 st executablePath else st
        Except.ok (executablePath, st)

/-- The canonical cache directory for a platform,
`~/.node-package-builder/cache/platform`. -/
def cachePlatformDir (homeDir platform : String) : String :=
  pathJoin (pathJoin (pathJoin homeDir ".node-package-builder") "cache") platform

/-- The canonical cached-binary path,
`cache_root/platform/version/(node|node.exe)`. -/
def cacheExecPath (homeDir version platform : String) : String :=
  pathJoin (pathJoin (cachePlatformDir homeDir platform) version)
    (if platform == "win32" then "node.exe" else "node")

/-- The temporary archive path the download is streamed to. -/
def cacheArchivePath (homeDir version platform : String) : String :=
  pathJoin (cachePlatformDir homeDir platform)
    ("node-" ++ version ++ "-" ++ platform ++ "." ++
      (if platform == "win32" then "zip" else "tar.gz"))

/-! ## File-system model and the build pipeline

The on-disk state is a set of file paths and a set of directory paths.
The external effects the pipeline triggers (`node --experimental-sea-config`,
`npx postject`, the base-binary copy, `unlinkSync` failures, the
verification re-invocation) are oracle parameters, so every theorem
quantifies over all of their outcomes. -/

structure Fs where
  files : List String
  dirs : List String
deriving DecidableEq

def existsFile (fs : Fs) (p : String) : Bool := fs.files.contains p

def writeFile (fs : Fs) (p : String) : Fs := { fs with files := p :: fs.files }

/-- `unlinkSync` (when it does not throw). -/
def unlinkFile (fs : Fs) (p : String) : Fs :=
  { fs with files := fs.files.filter (fun q => q != p) }

def existsDir (fs : Fs) (p : String) : Bool := fs.dirs.contains p

/-- `mkdirSync(p, {recursive:true})` guarded by the `existsSync` check. -/
def mkdirRec (fs : Fs) (p : String) : Fs :=
  if existsDir fs p then fs else { fs with dirs := p :: fs.dirs }

/-- Is `q` the directory `dir` itself or a path inside it? -/
def underDir (dir q : String) : Bool := jsStartsWith q (dir ++ "/") || q == dir

/-- `fs.rmSync(dir, {recursive:true, force:true})`: removes the directory
and everything under it. -/
def rmTree (fs : Fs) (dir : String) : Fs :=
  { files := fs.files.filter (fun q => !underDir dir q)
    dirs := fs.dirs.filter (fun q => !underDir dir q) }

/-- Outcomes of the external steps of `buildForPlatform`, keyed by the
target platform (each models one subprocess/file-copy per platform):
blob generation, base-executable assembly, `postject` injection, the
windows verification re-invocation, and whether `unlinkSync` throws for
a given path. -/
structure ExtTools where
  generateBlobResult : String → Except String Unit
  createExecutableResult : String → Except String Unit
  injectResult : String → Except String Unit
  verifyInvocation : ExecOutcome
  unlinkFails : String → Bool

/-- `ensureTempDir` (run by the constructor): create `tempDir` and
`tempDir/buildId` when missing. -/
def ensureTempDir (b : Builder) (fs : Fs) : Fs :=
  mkdirRec (mkdirRec fs b.options.tempDir) b.tempBuildDir

/-- `cleanup(files)`: per file, inside a try/catch — remove it when it
exists; a throwing `unlinkSync` is caught (warning only) and the loop
continues with the remaining files. -/
def cleanup (t : ExtTools) (fs : Fs) (files : List String) : Fs :=
  files.foldl
    (fun st file =>
      if existsFile st file then
        if t.unlinkFails file then st else unlinkFile st file
      else st)
    fs

/-- `cleanupTempDir`: remove the whole session build directory when it
exists. -/
def cleanupTempDir (b : Builder) (fs : Fs) : Fs :=
  if existsDir fs b.tempBuildDir then rmTree fs b.tempBuildDir else fs

/-- The success payload of `buildForPlatform`. -/
structure BuildOk where
  platform : String
  executable : String
  path : String
  buildId : String
deriving DecidableEq

/-- One entry of the array `build()` resolves to: either
`{platform, success:true, executable, path, buildId}` or
`{platform, success:false, error}`. -/
inductive BuildResult where
  | success (platform executable path buildId : String)
  | failure (platform error : String)
deriving DecidableEq

def BuildResult.platform : BuildResult → String
  | BuildResult.success p _ _ _ => p
  | BuildResult.failure p _ => p

/-- `injectBlob`: wraps a failing `postject` run — and, on win32, a
failing `verifyWindowsExecutable` thrown inside the same try block —
into the `Failed to inject blob:` error. -/
def injectBlob (t : ExtTools) (platform : String) : Except String Unit :=
  match t.injectResult platform with
  | Except.error e => Except.error ("Failed to inject blob: " ++ e)
  | Except.ok _ =>
    if platform == "win32" then
      match verifyWindowsExecutable t.verifyInvocation with
      | Except.error e => Except.error ("Failed to inject blob: " ++ e)
      | Except.ok _ => Except.ok ()
    else Except.ok ()

/-- `buildForPlatform(platform)`: write the SEA config, then inside the
try block generate the blob (the external tool writes the blob file),
assemble the executable (a copy of the base binary appears at the output
name; `getExecutableName` already carries the `.exe` suffix for win32),
inject, and sign (`signExecutable` swallows every failure and has no
modelled file-system effect).  Both the success path and the catch
path run `cleanup([configPath, blobPath])` before returning/rethrowing. -/
def buildForPlatform (b : Builder) (t : ExtTools) (platform : String) (fs : Fs) :
    Except String BuildOk × Fs :=
  let configPath := (createSeaConfig b platform).2
  let fs := writeFile fs configPath
  let blobPath := pathJoin b.tempBuildDir ("sea-prep-" ++ platform ++ ".blob")
  let executableName := getExecutableName b.options.output platform
  match t.generateBlobResult platform with
  | Except.error e =>
    (Except.error ("Failed to generate blob: " ++ e), cleanup t fs [configPath, blobPath])
  | Except.ok _ =>
    let fs := writeFile fs blobPath
    match t.createExecutableResult platform with
    | Except.error e => (Except.error e, cleanup t fs [configPath, blobPath])
    | Except.ok _ =>
      let fs := writeFile fs executableName
      match injectBlob t platform with
      | Except.error e => (Except.error e, cleanup t fs [configPath, blobPath])
      | Except.ok _ =>
        (Except.ok
          { platform := platform
            executable := executableName
            path := pathResolve b.cwd executableName
            buildId := b.buildId },
         cleanup t fs [configPath, blobPath])

/-- The per-platform try/catch of `build()`: a resolved pipeline becomes
a success entry, a thrown error becomes `{platform, success:false,
error}`. -/
def settle (platform : String) : Except String BuildOk → BuildResult
  | Except.ok r => BuildResult.success r.platform r.executable r.path r.buildId
  | Except.error e => BuildResult.failure platform e

/-- The `for (const platform of this.options.platforms)` loop of
`build()`. -/
def buildLoop (b : Builder) (t : ExtTools) : List String → Fs → List BuildResult × Fs
  | [], fs => ([], fs)
  | p :: ps, fs =>
    let step := buildForPlatform b t p fs
    let rest := buildLoop b t ps step.2
    (settle p step.1 :: rest.1, rest.2)

/-- `build()`: the loop inside `try`, with `cleanupTempDir` in the
`finally`. -/
def build (b : Builder) (t : ExtTools) (fs : Fs) : List BuildResult × Fs :=
  let r := buildLoop b t b.options.platforms fs
  (r.1, cleanupTempDir b r.2)

/-! ## Claim theorems: version comparison, naming, URLs, config, verify -/

theorem vergeLoop_eq_versionLex (cur req : List (Option Int)) :
    vergeLoop cur req =
      versionLex (cur.map (fun x => x.getD 0)) (req.map (fun x => x.getD 0)) := by
  induction cur generalizing req with
  | nil =>
    induction req with
    | nil => rfl
    | cons r rs ih =>
      have h : vergeNil rs = versionLexNil (rs.map fun x => x.getD 0) := ih
      show vergeNil (r :: rs) = versionLexNil ((r :: rs).map (fun x => x.getD 0))
      unfold vergeNil versionLexNil
      simp [h]
  | cons c cs ih =>
    cases req with
    | nil =>
      have h := ih []
      show vergeLoop (c :: cs) [] = versionLex _ _
      unfold vergeLoop versionLex
      simp [h]
    | cons r rs =>
      have h := ih rs
      show vergeLoop (c :: cs) (r :: rs) = versionLex _ _
      unfold vergeLoop versionLex
      simp [h]

/-- C8: `isVersionGreaterOrEqual` compares the dot-separated numeric
components left to right with missing components treated as `0`
(only the `|| 0`-defaulted values of the components matter, stated via
`versionLex`); in particular `("20.1.0","19.9.0") = true`,
`("19.8.9","19.9.0") = false`, and `("20","20.0.0") = true`. -/
theorem claim_C8_isVersionGreaterOrEqual :
    isVersionGreaterOrEqual "20.1.0" "19.9.0" = true ∧
    isVersionGreaterOrEqual "19.8.9" "19.9.0" = false ∧
    isVersionGreaterOrEqual "20" "20.0.0" = true ∧
    (∀ cur req : List (Option Int),
      vergeLoop cur req =
        versionLex (cur.map (fun x => x.getD 0)) (req.map (fun x => x.getD 0))) :=
  ⟨by decide, by decide, by decide, vergeLoop_eq_versionLex⟩

/-- C10 counterexample: the claim says a version string with no numeric
components is accepted against any required version; in fact
`isVersionGreaterOrEqual "abc" "19.9.0"` is `false` (NaN components are
coerced to `0` by the `|| 0` defaulting, and `0 < 19`), and
`checkNodeVersion` rejects the host version string `"abc"`. -/
theorem claim_C10_counterexample :
    isVersionGreaterOrEqual "abc" "19.9.0" = false ∧
    checkNodeVersion "abc" =
      Except.error "Node.js version 19.9.0 or higher is required. Current version: abc" :=
  ⟨by decide, by rfl⟩

/-- C10 (amended): a non-numeral component does parse to NaN
(`jsNumber "abc" = none`), but the `currentParts[i] || 0` defaulting
coerces NaN — which is falsy — to `0`, so the loop compares it as `0`
rather than skipping it; consequently `isVersionGreaterOrEqual "abc"
"19.9.0" = false` and `checkNodeVersion` rejects the non-numeric host
version `"abc"`. -/
theorem claim_C10_amended :
    jsNumber "abc" = none ∧
    (∀ (cs rs : List (Option Int)) (r : Option Int),
      vergeLoop (none :: cs) (r :: rs) = vergeLoop (some 0 :: cs) (r :: rs)) ∧
    isVersionGreaterOrEqual "abc" "19.9.0" = false ∧
    checkNodeVersion "abc" =
      Except.error "Node.js version 19.9.0 or higher is required. Current version: abc" :=
  ⟨by decide, fun _ _ _ => rfl, by decide, by rfl⟩

/-- C9: `getExecutableName` returns the base name unchanged for `linux`
and `darwin`; on `win32` it appends `.exe` exactly once when the base
name does not already end in `.exe`, leaves a name already ending in
`.exe` unchanged, and is idempotent. -/
theorem claim_C9_getExecutableName (base : String) :
    getExecutableName base "linux" = base ∧
    getExecutableName base "darwin" = base ∧
    (jsEndsWith base ".exe" = false → getExecutableName base "win32" = base ++ ".exe") ∧
    (jsEndsWith base ".exe" = true → getExecutableName base "win32" = base) ∧
    getExecutableName (getExecutableName base "win32") "win32" =
      getExecutableName base "win32" := by
  refine ⟨rfl, rfl, ?_, ?_, ?_⟩
  · intro h
    simp [getExecutableName, h]
  · intro h
    simp [getExecutableName, h]
  · cases h : jsEndsWith base ".exe" with
    | true => simp [getExecutableName, h]
    | false =>
      have hexe : jsEndsWith (base ++ ".exe") ".exe" = true :=
        jsEndsWith_of_data _ _ base.data (String.data_append base ".exe")
      simp [getExecutableName, h, hexe]

theorem claim_C9_witness :
    getExecutableName "app" "win32" = "app.exe" ∧
    getExecutableName "app.exe" "win32" = "app.exe" :=
  ⟨(claim_C9_getExecutableName "app").2.2.1 (by decide),
   (claim_C9_getExecutableName "app.exe").2.2.2.1 (by decide)⟩

/-- C7: for each of the three supported platforms, `getNodeDownloadUrl`
returns a URL containing the exact version token and the platform's URL
token (`linux`, `darwin`, `win`), ending in `.zip` for `win32` and in
`.tar.gz` otherwise; for any other platform it throws the
unsupported-platform error. -/
theorem claim_C7_getNodeDownloadUrl (version platform : String) :
    (platform = "linux" ∨ platform = "darwin" ∨ platform = "win32" →
      ∃ url, getNodeDownloadUrl version platform = Except.ok url ∧
        jsIncludes url version = true ∧
        jsIncludes url (platformUrlToken platform) = true ∧
        jsEndsWith url (if platform == "win32" then ".zip" else ".tar.gz") = true) ∧
    (platform ≠ "linux" → platform ≠ "darwin" → platform ≠ "win32" →
      getNodeDownloadUrl version platform =
        Except.error ("Unsupported platform: " ++ platform)) := by
  constructor
  · rintro (rfl | rfl | rfl)
    · refine ⟨_, rfl, ?_, ?_, ?_⟩
      · exact jsIncludes_of_data _ _ "https://nodejs.org/dist/v".data
          ("/node-v".data ++ version.data ++ "-linux-x64.tar.gz".data)
          (by simp [String.data_append])
      · exact jsIncludes_of_data _ _
          ("https://nodejs.org/dist/v".data ++ version.data ++ "/node-v".data ++
            version.data ++ "-".data) "-x64.tar.gz".data
          (by simp [String.data_append, platformUrlToken])
      · exact jsEndsWith_of_data _ _
          ("https://nodejs.org/dist/v".data ++ version.data ++ "/node-v".data ++
            version.data ++ "-linux-x64".data)
          (by simp [String.data_append])
    · refine ⟨_, rfl, ?_, ?_, ?_⟩
      · exact jsIncludes_of_data _ _ "https://nodejs.org/dist/v".data
          ("/node-v".data ++ version.data ++ "-darwin-x64.tar.gz".data)
          (by simp [String.data_append])
      · exact jsIncludes_of_data _ _
          ("https://nodejs.org/dist/v".data ++ version.data ++ "/node-v".data ++
            version.data ++ "-".data) "-x64.tar.gz".data
          (by simp [String.data_append, platformUrlToken])
      · exact jsEndsWith_of_data _ _
          ("https://nodejs.org/dist/v".data ++ version.data ++ "/node-v".data ++
            version.data ++ "-darwin-x64".data)
          (by simp [String.data_append])
    · refine ⟨_, rfl, ?_, ?_, ?_⟩
      · exact jsIncludes_of_data _ _ "https://nodejs.org/dist/v".data
          ("/node-v".data ++ version.data ++ "-win-x64.zip".data)
          (by simp [String.data_append])
      · exact jsIncludes_of_data _ _
          ("https://nodejs.org/dist/v".data ++ version.data ++ "/node-v".data ++
            version.data ++ "-".data) "-x64.zip".data
          (by simp [String.data_append, platformUrlToken])
      · exact jsEndsWith_of_data _ _
          ("https://nodejs.org/dist/v".data ++ version.data ++ "/node-v".data ++
            version.data ++ "-win-x64".data)
          (by simp [String.data_append])
  · intro h1 h2 h3
    have b1 : (platform == "linux") = false := by simpa using h1
    have b2 : (platform == "darwin") = false := by simpa using h2
    have b3 : (platform == "win32") = false := by simpa using h3
    simp [getNodeDownloadUrl, b1, b2, b3]

theorem claim_C7_witness :
    (∃ url, getNodeDownloadUrl "20.18.0" "linux" = Except.ok url ∧
      jsIncludes url "20.18.0" = true ∧
      jsIncludes url (platformUrlToken "linux") = true ∧
      jsEndsWith url (if "linux" == "win32" then ".zip" else ".tar.gz") = true) ∧
    getNodeDownloadUrl "20.18.0" "freebsd" =
      Except.error ("Unsupported platform: " ++ "freebsd") :=
  ⟨(claim_C7_getNodeDownloadUrl "20.18.0" "linux").1 (Or.inl rfl),
   (claim_C7_getNodeDownloadUrl "20.18.0" "freebsd").2
     (by decide) (by decide) (by decide)⟩

/-- C6: the config serialized by `createSeaConfig` has its snapshot and
code-cache flags forced off whenever the target platform differs from
the host platform and carries the user-supplied values when they are
equal, and it contains an `assets` key exactly when the assets map is
non-empty. -/
theorem claim_C6_createSeaConfig (b : Builder) (platform : String) :
    (createSeaConfig b platform).1.useSnapshot =
      (platform == b.hostPlatform && b.options.useSnapshot) ∧
    (createSeaConfig b platform).1.useCodeCache =
      (platform == b.hostPlatform && b.options.useCodeCache) ∧
    (createSeaConfig b platform).1.assets =
      (if b.options.assets.length > 0 then some b.options.assets else none) := by
  cases hb : platform == b.hostPlatform <;>
    cases hl : decide (b.options.assets.length > 0) <;>
      simp_all [createSeaConfig, bne]

/-- C3 counterexample: the claim says exceeding the verification timeout
is treated as a hard failure; in fact the catch block swallows the
`ETIMEDOUT` error thrown by `execSync` (its message does not contain
`REPL mode`), so the timeout outcome verifies as success. -/
theorem claim_C3_counterexample :
    verifyWindowsExecutable (ExecOutcome.err "spawnSync app.exe ETIMEDOUT") =
      Except.ok () := by rfl

/-- C3 (amended): `verifyWindowsExecutable` re-invokes the executable
with `--help` under a 5000 ms timeout; when the invocation returns
output, presence of the REPL banner text is reported as the fatal
`REPL mode` error and absence is success; but when the invocation
throws — including on timeout — the error is swallowed and treated as
success unless its message contains `REPL mode`. -/
theorem claim_C3_verifyWindowsExecutable :
    verifyTimeoutMs = 5000 ∧
    (∀ out : String,
      (verifyWindowsExecutable (ExecOutcome.ok out) =
          Except.error "Windows executable is still in REPL mode - blob injection failed" ↔
        (jsIncludes out "Welcome to Node.js" || jsIncludes out "Type \".help\"") = true) ∧
      (verifyWindowsExecutable (ExecOutcome.ok out) = Except.ok () ↔
        (jsIncludes out "Welcome to Node.js" || jsIncludes out "Type \".help\"") = false)) ∧
    (∀ m : String,
      verifyWindowsExecutable (ExecOutcome.err m) =
        if jsIncludes m "REPL mode" then Except.error m else Except.ok ()) := by
  refine ⟨rfl, ?_, ?_⟩
  · intro out
    cases h : (jsIncludes out "Welcome to Node.js" || jsIncludes out "Type \".help\"") <;>
      simp [verifyWindowsExecutable, h]
  · intro m
    cases h : jsIncludes m "REPL mode" <;> simp [verifyWindowsExecutable, h]

/-! ## Claim theorem: version resolution bounds -/

theorem filterValid_mem {versions valid : List DistEntry} {e : DistEntry}
    (h : filterValid versions = Except.ok valid) (he : e ∈ valid) :
    validFilterPred e = Except.ok true := by
  induction versions generalizing valid with
  | nil =>
    simp only [filterValid, Except.ok.injEq] at h
    subst h
    cases he
  | cons hd tl ih =>
    unfold filterValid at h
    cases hp : validFilterPred hd with
    | error er => rw [hp] at h; cases h
    | ok b =>
      rw [hp] at h
      cases b with
      | false => exact ih h he
      | true =>
        cases hr : filterValid tl with
        | error er => rw [hr] at h; cases h
        | ok r =>
          rw [hr] at h
          simp only [Except.ok.injEq] at h
          subst h
          cases he with
          | head => exact hp
          | tail _ hm => exact ih hr hm

theorem findPreferred_mem {valid : List DistEntry} {v : String}
    (prefs : List String) (h : findPreferred valid prefs = some v) :
    ∃ e ∈ valid, v = jsSlice1 e.version := by
  induction prefs with
  | nil => cases h
  | cons p rest ih =>
    unfold findPreferred at h
    cases hf : valid.find? (fun w => jsSlice1 w.version == p) with
    | none => rw [hf] at h; exact ih h
    | some found =>
      rw [hf] at h
      simp only [Option.some.injEq] at h
      exact ⟨found, List.mem_of_find?_eq_some hf, h.symm⟩

theorem selectFromValid_ok {valid : List DistEntry} {v : String}
    (h : selectFromValid valid = Except.ok v) :
    ∃ e ∈ valid, v = jsSlice1 e.version := by
  cases valid with
  | nil => simp [selectFromValid] at h
  | cons hd tl =>
    cases hp : findPreferred (hd :: tl) preferredVersions with
    | some w =>
      simp only [selectFromValid, hp, Except.ok.injEq] at h
      obtain ⟨e, hmem, hv⟩ := findPreferred_mem _ hp
      exact ⟨e, hmem, by rw [← h, hv]⟩
    | none =>
      cases hl : (hd :: tl).find?
          (fun w => w.lts.isSome && semverMajorIs20 (jsSlice1 w.version)) with
      | some lt2 =>
        simp only [selectFromValid, hp, hl, Except.ok.injEq] at h
        exact ⟨lt2, List.mem_of_find?_eq_some hl, h.symm⟩
      | none =>
        simp only [selectFromValid, hp, hl, Except.ok.injEq] at h
        exact ⟨hd, List.mem_cons_self hd tl, h.symm⟩

theorem selectVersion_ok {versions : List DistEntry} {v : String}
    (h : selectVersion versions = Except.ok v) :
    ∃ e, validFilterPred e = Except.ok true ∧ v = jsSlice1 e.version := by
  cases hf : filterValid versions with
  | error er =>
    simp only [selectVersion, hf] at h
    exact Except.noConfusion h
  | ok valid =>
    simp only [selectVersion, hf] at h
    obtain ⟨e, hmem, hv⟩ := selectFromValid_ok h
    exact ⟨e, filterValid_mem hf hmem, hv⟩

theorem validFilterPred_props {e : DistEntry}
    (h : validFilterPred e = Except.ok true) :
    semverGteE (jsSlice1 e.version) "19.9.0" = Except.ok true ∧
    semverLteE (jsSlice1 e.version) "22.99.99" = Except.ok true ∧
    jsIncludes e.version "rc" = false ∧
    jsIncludes e.version "beta" = false := by
  cases hg : semverGteE (jsSlice1 e.version) "19.9.0" with
  | error er =>
    simp only [validFilterPred, hg] at h
    exact Except.noConfusion h
  | ok g =>
    cases g with
    | false => simp [validFilterPred, hg] at h
    | true =>
      cases hl : semverLteE (jsSlice1 e.version) "22.99.99" with
      | error er =>
        simp only [validFilterPred, hg, hl, Bool.not_true, Bool.false_eq_true,
          if_false] at h
        exact Except.noConfusion h
      | ok l =>
        cases l with
        | false => simp [validFilterPred, hg, hl] at h
        | true =>
          simp only [validFilterPred, hg, hl, Bool.not_true, Bool.false_eq_true,
            if_false, Except.ok.injEq, Bool.and_eq_true, Bool.not_eq_true'] at h
          exact ⟨rfl, rfl, h.1, h.2⟩

theorem jsIncludes_slice1 {s : String} (sub : String)
    (h : jsIncludes s sub = false) : jsIncludes (jsSlice1 s) sub = false := by
  cases hx : jsIncludes (jsSlice1 s) sub with
  | false => rfl
  | true =>
    exfalso
    have : jsIncludes s sub = true := listHasSub_of_tail sub.data hx
    rw [h] at this
    cases this

/-- C4: whatever version index the remote returns — including mocks with
pre-release entries — and also when the fetch fails, the version string
`getRecommendedNodeVersion` returns satisfies `semver.gte _ "19.9.0"`
and `semver.lte _ "22.99.99"` and contains neither `rc` nor `beta`; on
a failed fetch, and on any internal throw (invalid version string in the
index, or an empty filtered set), it returns the hardcoded fallback
`20.18.0` and never throws (it is a total function into `String`). -/
theorem claim_C4_getRecommendedNodeVersion (fetched : Option (List DistEntry)) :
    semverGteE (getRecommendedNodeVersion fetched) "19.9.0" = Except.ok true ∧
    semverLteE (getRecommendedNodeVersion fetched) "22.99.99" = Except.ok true ∧
    jsIncludes (getRecommendedNodeVersion fetched) "rc" = false ∧
    jsIncludes (getRecommendedNodeVersion fetched) "beta" = false ∧
    (fetched = none → getRecommendedNodeVersion fetched = "20.18.0") ∧
    (∀ (versions : List DistEntry) (er : String), fetched = some versions →
      selectVersion versions = Except.error er →
      getRecommendedNodeVersion fetched = "20.18.0") := by
  cases fetched with
  | none =>
    refine ⟨by rfl, by rfl, by decide, by decide, fun _ => rfl, ?_⟩
    intro versions er hv
    exact Option.noConfusion hv
  | some versions =>
    cases hs : selectVersion versions with
    | error er =>
      have hr : getRecommendedNodeVersion (some versions) = "20.18.0" := by
        simp only [getRecommendedNodeVersion, hs]
      rw [hr]
      exact ⟨by rfl, by rfl, by decide, by decide,
        fun h => Option.noConfusion h, fun _ _ _ _ => rfl⟩
    | ok v =>
      have hr : getRecommendedNodeVersion (some versions) = v := by
        simp only [getRecommendedNodeVersion, hs]
      obtain ⟨e, hpred, hv⟩ := selectVersion_ok hs
      obtain ⟨h1, h2, h3, h4⟩ := validFilterPred_props hpred
      rw [hr, hv]
      refine ⟨h1, h2, jsIncludes_slice1 _ h3, jsIncludes_slice1 _ h4,
        fun h => Option.noConfusion h, ?_⟩
      intro versions₂ er hveq herr
      simp only [Option.some.injEq] at hveq
      subst hveq
      rw [hs] at herr
      exact Except.noConfusion herr

theorem claim_C4_witness :
    getRecommendedNodeVersion none = "20.18.0" ∧
    getRecommendedNodeVersion (some [⟨"vgarbage", none⟩]) = "20.18.0" ∧
    semverGteE
      (getRecommendedNodeVersion
        (some [⟨"v22.0.0-rc.1", none⟩, ⟨"v20.18.0", some "Iron"⟩])) "19.9.0" =
      Except.ok true :=
  ⟨(claim_C4_getRecommendedNodeVersion none).2.2.2.2.1 rfl,
   (claim_C4_getRecommendedNodeVersion (some [⟨"vgarbage", none⟩])).2.2.2.2.2
     [⟨"vgarbage", none⟩] "Invalid Version" rfl (by rfl),
   (claim_C4_getRecommendedNodeVersion
     (some [⟨"v22.0.0-rc.1", none⟩, ⟨"v20.18.0", some "Iron"⟩])).1⟩

/-! ## Claim theorem: runtime-binary cache behavior -/

theorem cacheMkdir_files (st : CacheFs) (p : String) :
    (cacheMkdir st p).files = st.files := by
  unfold cacheMkdir
  split <;> rfl

theorem cacheMkdir_perms (st : CacheFs) (p : String) :
    (cacheMkdir st p).perms = st.perms := by
  unfold cacheMkdir
  split <;> rfl

theorem cacheMkdir_downloads (st : CacheFs) (p : String) :
    (cacheMkdir st p).downloads = st.downloads := by
  unfold cacheMkdir
  split <;> rfl

theorem contains_filter_ne (l : List String) (p : String) :
    (l.filter (fun q => q != p)).contains p = false := by
  cases hc : (l.filter (fun q => q != p)).contains p with
  | false => rfl
  | true =>
    exfalso
    have hm : p ∈ l.filter (fun q => q != p) := List.mem_of_elem_eq_true hc
    have hne := (List.mem_filter.mp hm).2
    simp at hne

/-- When the binary is not cached and the platform is supported,
`downloadNodeBinary` takes the download path, whose final check runs on
the post-extraction file set. -/
theorem downloadNodeBinary_miss (o : ExtractOracle)
    (homeDir version platform url : String) (st : CacheFs)
    (hurl : getNodeDownloadUrl version platform = Except.ok url)
    (h : st.files.contains (cacheExecPath homeDir version platform) = false) :
    downloadNodeBinary o homeDir version platform st =
      (if !(((o.extractedFiles ++ cacheArchivePath homeDir version platform :: st.files).filter
            (fun q => q != cacheArchivePath homeDir version platform)).contains
          (cacheExecPath homeDir version platform)) then
        Except.error ("Failed to extract Node.js executable for " ++ platform)
      else
        Except.ok (cacheExecPath homeDir version platform,
          (let stB : CacheFs :=
            cacheUnlink
              (extractNodeBinary o
                (cacheMkdir
                  (downloadFile
                    (cacheMkdir
                      (cacheMkdir st
                        (pathJoin (pathJoin homeDir ".node-package-builder") "cache"))
                      (cachePlatformDir homeDir platform))
                    url (cacheArchivePath homeDir version platform))
                  (pathJoin (cachePlatformDir homeDir platform) version)))
              (cacheArchivePath homeDir version platform)
          if platform != "win32" then
            chmod755 stB (cacheExecPath homeDir version platform)
          else stB))) := by
  unfold downloadNodeBinary
  simp only [cacheExecPath, cachePlatformDir, cacheArchivePath] at h hurl ⊢
  simp only [pathJoin] at h hurl ⊢
  simp only [cacheMkdir_files, h, Bool.false_eq_true, if_false, hurl,
    extractNodeBinary, downloadFile, cacheUnlink]

/-- C5: for a session that resolved `version`, `downloadNodeBinary`
always hands back the canonical cache path
`cache_root/platform/version/(node|node.exe)`: on a warm cache it
returns it without any download and with files and permissions
untouched; on a cold cache (any supported platform) it performs exactly
one download, extracts, deletes the archive file, sets the binary's
mode to 755 for non-windows platforms, and returns the canonical path —
unless the binary is absent at that path after extraction, in which
case it throws the extraction-failure error. -/
theorem claim_C5_downloadNodeBinary (o : ExtractOracle)
    (homeDir version platform : String) (st : CacheFs) :
    (st.files.contains (cacheExecPath homeDir version platform) = true →
      ∃ st₂,
        downloadNodeBinary o homeDir version platform st =
          Except.ok (cacheExecPath homeDir version platform, st₂) ∧
        st₂.downloads = st.downloads ∧ st₂.files = st.files ∧ st₂.perms = st.perms) ∧
    (st.files.contains (cacheExecPath homeDir version platform) = false →
      (platform = "linux" ∨ platform = "darwin" ∨ platform = "win32") →
      ((o.extractedFiles ++ cacheArchivePath homeDir version platform :: st.files).filter
          (fun q => q != cacheArchivePath homeDir version platform)).contains
        (cacheExecPath homeDir version platform) = true →
      ∃ st₂,
        downloadNodeBinary o homeDir version platform st =
          Except.ok (cacheExecPath homeDir version platform, st₂) ∧
        st₂.downloads = st.downloads + 1 ∧
        st₂.files.contains (cacheArchivePath homeDir version platform) = false ∧
        (platform ≠ "win32" →
          st₂.perms.contains (cacheExecPath homeDir version platform, "755") = true)) ∧
    (st.files.contains (cacheExecPath homeDir version platform) = false →
      (platform = "linux" ∨ platform = "darwin" ∨ platform = "win32") →
      ((o.extractedFiles ++ cacheArchivePath homeDir version platform :: st.files).filter
          (fun q => q != cacheArchivePath homeDir version platform)).contains
        (cacheExecPath homeDir version platform) = false →
      downloadNodeBinary o homeDir version platform st =
        Except.error ("Failed to extract Node.js executable for " ++ platform)) := by
  refine ⟨?_, ?_, ?_⟩
  · intro h
    refine ⟨cacheMkdir
        (cacheMkdir st (pathJoin (pathJoin homeDir ".node-package-builder") "cache"))
        (cachePlatformDir homeDir platform), ?_, ?_, ?_, ?_⟩
    · unfold downloadNodeBinary
      simp only [cacheExecPath, cachePlatformDir] at h ⊢
      simp only [pathJoin] at h ⊢
      simp only [cacheMkdir_files, h, if_true]
    · simp only [cacheMkdir_downloads]
    · simp only [cacheMkdir_files]
    · simp only [cacheMkdir_perms]
  · intro h hsup hpresent
    obtain ⟨url, hurl⟩ : ∃ url, getNodeDownloadUrl version platform = Except.ok url := by
      rcases hsup with rfl | rfl | rfl
      · exact ⟨_, rfl⟩
      · exact ⟨_, rfl⟩
      · exact ⟨_, rfl⟩
    rw [downloadNodeBinary_miss o homeDir version platform url st hurl h]
    rw [hpresent]
    simp only [Bool.not_true, Bool.false_eq_true, if_false]
    refine ⟨_, rfl, ?_, ?_, ?_⟩
    · cases hw : platform != "win32" <;>
        simp [hw, chmod755, cacheUnlink, extractNodeBinary, cacheMkdir_downloads,
          downloadFile]
    · cases hw : platform != "win32" <;>
        simp [hw, chmod755, cacheUnlink, extractNodeBinary, cacheMkdir_files,
          downloadFile, contains_filter_ne]
    · intro hne
      have hw : (platform != "win32") = true := bne_iff_ne.mpr hne
      simp only [hw, if_true, chmod755]
      simp [List.contains_cons]
  · intro h hsup habsent
    obtain ⟨url, hurl⟩ : ∃ url, getNodeDownloadUrl version platform = Except.ok url := by
      rcases hsup with rfl | rfl | rfl
      · exact ⟨_, rfl⟩
      · exact ⟨_, rfl⟩
      · exact ⟨_, rfl⟩
    rw [downloadNodeBinary_miss o homeDir version platform url st hurl h]
    rw [habsent]
    simp only [Bool.not_false, if_true]

theorem claim_C5_witness :
    (∃ st₂,
      downloadNodeBinary ⟨[]⟩ "/h" "20.18.0" "linux"
          ⟨["/h/.node-package-builder/cache/linux/20.18.0/node"], [], [], 0⟩ =
        Except.ok (cacheExecPath "/h" "20.18.0" "linux", st₂) ∧
      st₂.downloads = 0 ∧
      st₂.files = ["/h/.node-package-builder/cache/linux/20.18.0/node"] ∧
      st₂.perms = []) ∧
    (∃ st₂,
      downloadNodeBinary ⟨["/h/.node-package-builder/cache/linux/20.18.0/node"]⟩
          "/h" "20.18.0" "linux" ⟨[], [], [], 0⟩ =
        Except.ok (cacheExecPath "/h" "20.18.0" "linux", st₂) ∧
      st₂.downloads = 0 + 1 ∧
      st₂.files.contains (cacheArchivePath "/h" "20.18.0" "linux") = false ∧
      ("linux" ≠ "win32" →
        st₂.perms.contains (cacheExecPath "/h" "20.18.0" "linux", "755") = true)) :=
  ⟨(claim_C5_downloadNodeBinary ⟨[]⟩ "/h" "20.18.0" "linux"
      ⟨["/h/.node-package-builder/cache/linux/20.18.0/node"], [], [], 0⟩).1 (by decide),
   (claim_C5_downloadNodeBinary ⟨["/h/.node-package-builder/cache/linux/20.18.0/node"]⟩
      "/h" "20.18.0" "linux" ⟨[], [], [], 0⟩).2.1 (by decide) (Or.inl rfl) (by decide)⟩

/-! ## Claim theorems: coordinator and cleanup guarantees -/

theorem buildForPlatform_fst_const (b : Builder) (t : ExtTools) (p : String)
    (fs fs₂ : Fs) :
    (buildForPlatform b t p fs).1 = (buildForPlatform b t p fs₂).1 := by
  unfold buildForPlatform
  cases t.generateBlobResult p <;> cases t.createExecutableResult p <;>
    cases injectBlob t p <;> rfl

theorem settle_platform (b : Builder) (t : ExtTools) (p : String) (fs : Fs) :
    (settle p (buildForPlatform b t p fs).1).platform = p := by
  unfold buildForPlatform
  cases t.generateBlobResult p <;> cases t.createExecutableResult p <;>
    cases injectBlob t p <;> rfl

theorem buildLoop_fst (b : Builder) (t : ExtTools) (ps : List String) (fs : Fs) :
    (buildLoop b t ps fs).1 = ps.map (fun p => settle p (buildForPlatform b t p fs).1) := by
  induction ps generalizing fs with
  | nil => rfl
  | cons p ps ih =>
    show settle p (buildForPlatform b t p fs).1 :: (buildLoop b t ps (buildForPlatform b t p fs).2).1 = _
    rw [ih]
    simp only [List.map_cons]
    congr 1
    exact List.map_congr_left fun q _ => by
      rw [buildForPlatform_fst_const b t q (buildForPlatform b t p fs).2 fs]

/-- C1: `build()` returns one `BuildResult` per requested platform in
request order; the entry for platform `p` is determined by `p`'s own
pipeline outcome alone (`settle p`), so a platform whose pipeline throws
contributes `{platform, success:false, error}` while the remaining
platforms are still processed, and `build()` always returns the list as
a value (every oracle outcome is covered by the universally quantified
`ExtTools`, and the error entry never escapes `settle`). -/
theorem claim_C1_build (b : Builder) (t : ExtTools) (fs : Fs) :
    (build b t fs).1 =
      b.options.platforms.map (fun p => settle p (buildForPlatform b t p fs).1) ∧
    (build b t fs).1.map BuildResult.platform = b.options.platforms ∧
    (build b t fs).1.length = b.options.platforms.length := by
  have hfst : (build b t fs).1 =
      b.options.platforms.map (fun p => settle p (buildForPlatform b t p fs).1) :=
    buildLoop_fst b t b.options.platforms fs
  refine ⟨hfst, ?_, ?_⟩
  · rw [hfst, List.map_map]
    have : ∀ p ∈ b.options.platforms,
        (BuildResult.platform ∘ fun q => settle q (buildForPlatform b t q fs).1) p = id p :=
      fun p _ => settle_platform b t p fs
    rw [List.map_congr_left this, List.map_id]
  · rw [hfst, List.length_map]

theorem cleanup_dirs (t : ExtTools) (files : List String) (fs : Fs) :
    (cleanup t fs files).dirs = fs.dirs := by
  induction files generalizing fs with
  | nil => rfl
  | cons f rest ih =>
    show (cleanup t _ rest).dirs = fs.dirs
    rw [ih]
    cases h1 : existsFile fs f <;> cases h2 : t.unlinkFails f <;> simp [h1, h2, unlinkFile]

theorem buildForPlatform_dirs (b : Builder) (t : ExtTools) (p : String) (fs : Fs) :
    (buildForPlatform b t p fs).2.dirs = fs.dirs := by
  unfold buildForPlatform
  cases t.generateBlobResult p <;> cases t.createExecutableResult p <;>
    cases injectBlob t p <;> simp [cleanup_dirs, writeFile]

theorem buildLoop_dirs (b : Builder) (t : ExtTools) (ps : List String) (fs : Fs) :
    (buildLoop b t ps fs).2.dirs = fs.dirs := by
  induction ps generalizing fs with
  | nil => rfl
  | cons p ps ih =>
    show (buildLoop b t ps (buildForPlatform b t p fs).2).2.dirs = fs.dirs
    rw [ih, buildForPlatform_dirs]

theorem filter_all_not (u : String → Bool) (l : List String) :
    (l.filter (fun q => !u q)).all (fun q => !u q) = true := by
  simp only [List.all_eq_true, List.mem_filter]
  exact fun q hq => hq.2

/-- C2: (1) on every outcome — success or thrown error — the state
`buildForPlatform` leaves behind factors through `cleanup` applied to
the per-platform config file and blob file, i.e. the cleanup step runs
identically on both paths; (2) `cleanup` never throws: a file whose
removal fails is simply left in place and the loop continues with the
remaining files, for every failure oracle; (3) after `build()` returns
— for every combination of per-platform outcomes — no file or directory
under the session's temporary build directory (`tempDir/buildId`,
created by the constructor's `ensureTempDir`) remains on disk, nor the
directory itself. -/
theorem claim_C2_cleanup (b : Builder) (t : ExtTools) :
    (∀ (platform : String) (fs : Fs), ∃ preCleanup : Fs,
      (buildForPlatform b t platform fs).2 =
        cleanup t preCleanup
          [(createSeaConfig b platform).2,
           pathJoin b.tempBuildDir ("sea-prep-" ++ platform ++ ".blob")]) ∧
    (∀ (t₂ : ExtTools) (fs : Fs) (file : String) (rest : List String),
      cleanup t₂ fs (file :: rest) =
        cleanup t₂
          (if existsFile fs file && !t₂.unlinkFails file then unlinkFile fs file else fs)
          rest) ∧
    (∀ fs : Fs,
      ((build b t (ensureTempDir b fs)).2.files.all
        (fun q => !underDir b.tempBuildDir q)) = true ∧
      ((build b t (ensureTempDir b fs)).2.dirs.all
        (fun q => !underDir b.tempBuildDir q)) = true) := by
  refine ⟨?_, ?_, ?_⟩
  · intro platform fs
    unfold buildForPlatform
    cases t.generateBlobResult platform <;> cases t.createExecutableResult platform <;>
      cases injectBlob t platform <;> exact ⟨_, rfl⟩
  · intro t₂ fs file rest
    cases h1 : existsFile fs file <;> cases h2 : t₂.unlinkFails file <;>
      simp [cleanup, h1, h2]
  · intro fs
    have hmem : existsDir (ensureTempDir b fs) b.tempBuildDir = true := by
      unfold ensureTempDir
      generalize mkdirRec fs b.options.tempDir = fs₁
      unfold mkdirRec
      split
      · assumption
      · simp [existsDir, List.contains_cons]
    have hdirs : (buildLoop b t b.options.platforms (ensureTempDir b fs)).2.dirs =
        (ensureTempDir b fs).dirs := buildLoop_dirs b t _ _
    have hguard : existsDir (buildLoop b t b.options.platforms (ensureTempDir b fs)).2
        b.tempBuildDir = true := by
      unfold existsDir
      rw [hdirs]
      exact hmem
    show ((cleanupTempDir b _).files.all _ = true) ∧ ((cleanupTempDir b _).dirs.all _ = true)
    unfold cleanupTempDir
    rw [hguard]
    simp only [if_true]
    exact ⟨filter_all_not _ _, filter_all_not _ _⟩

end NPB
